import Mathlib

/-!
Shallow embedding of `src/tokenizer.rs` from the bitexpr repository.

The Rust tokenizer is a `while let Some(&ch) = chars.peek()` loop over a
peekable character iterator, dispatching on the current character.  We embed
it as:
  * `scanString`   — the inner string-literal loop (lines 155-180);
  * `scanIdent`    — the inner identifier-accumulation loop (lines 181-197);
  * `tokenizeStep` — one iteration of the outer dispatch `match` (lines 59-204);
  * `tokenizeFuel` — the outer loop, indexed by fuel, since the Rust loop does
    not structurally terminate (the default branch can consume no input).
`tokenizeFuel fuel cs = none` means the loop has not finished within `fuel`
iterations; `some r` is the value `tokenize` returns.  One unit of fuel
corresponds to exactly one iteration of the Rust `while` loop.
-/

namespace BitExpr

/-- `Operator` enum, tokenizer.rs lines 28-44. -/
inductive Operator where
  | Plus
  | Minus
  | Multiply
  | Divide
  | Modulo
  | Power
  | Equal
  | NotEqual
  | Greater
  | Less
  | GreaterEqual
  | LessEqual
  | And
  | Or
deriving DecidableEq, Repr

/-- `Token` enum, tokenizer.rs lines 3-12.  String payloads are embedded as
character lists (Rust `String` is built by pushing `char`s). -/
inductive Token where
  | Identifier (s : List Char)
  | Operator (op : Operator)
  | OpenParenthesis
  | CloseParenthesis
  | StringLiteral (s : List Char)
  | Function (s : List Char)
  | Comma
deriving DecidableEq, Repr

/-- `TokenizerError` enum, tokenizer.rs lines 46-52. -/
inductive TokenizerError where
  | UnexpectedChar (c : Char)
  | UnexpectedEndOfString
deriving DecidableEq, Repr

/-- Model of Rust `char::is_alphanumeric` (true on Unicode `Alphabetic` and
numeric characters), which is standard-library code not in this repository.
The model is exact on ASCII and additionally covers the Greek letter ranges
(the only non-ASCII characters exercised by the spec, e.g. `π`); all other
characters are treated as non-alphanumeric. -/
def rustIsAlphanumeric (c : Char) : Bool :=
  c.isAlphanum || (0x391 ≤ c.toNat && c.toNat ≤ 0x3A1) || (0x3A3 ≤ c.toNat && c.toNat ≤ 0x3C9)

/-- The accumulation condition of the identifier branch, tokenizer.rs line 184:
`ch.is_alphanumeric() || ch == '_' || ch == '.'`. -/
def isIdentChar (c : Char) : Bool :=
  rustIsAlphanumeric c || c = '_' || c = '.'

/-- Escape decoding inside a string literal, tokenizer.rs lines 162-167:
`'n'` ↦ newline, `'t'` ↦ tab, `'"'` ↦ `'"'`, anything else ↦ itself. -/
def escTranslate (e : Char) : Char :=
  if e = 'n' then '\n'
  else if e = 't' then '\t'
  else if e = '"' then '"'
  else e

/-- The inner string-literal loop, tokenizer.rs lines 157-178: the opening
quote has already been consumed; accumulate until an unescaped closing quote
(consumed, not kept) or end of input; a backslash consumes the next character
and pushes its translation, failing with `UnexpectedEndOfString` if there is
no next character.  Returns the accumulated contents and the unconsumed rest. -/
def scanString : List Char → Except TokenizerError (List Char × List Char)
  | [] => .ok ([], [])
  | c :: rest =>
    if c = '\\' then
      match rest with
      | [] => .error .UnexpectedEndOfString
      | e :: rest' => (scanString rest').map (fun p => (escTranslate e :: p.1, p.2))
    else if c = '"' then .ok ([], rest)
    else (scanString rest).map (fun p => (c :: p.1, p.2))

/-- The inner identifier-accumulation loop, tokenizer.rs lines 183-197:
accumulate while the character is alphanumeric, `'_'` or `'.'`; on a backslash
consume it and append the next character verbatim (`UnexpectedEndOfString` if
none); otherwise stop, leaving the character unconsumed. -/
def scanIdent : List Char → Except TokenizerError (List Char × List Char)
  | [] => .ok ([], [])
  | c :: rest =>
    if isIdentChar c then
      (scanIdent rest).map (fun p => (c :: p.1, p.2))
    else if c = '\\' then
      match rest with
      | [] => .error .UnexpectedEndOfString
      | e :: rest' => (scanIdent rest').map (fun p => (e :: p.1, p.2))
    else .ok ([], c :: rest)

/-- The outcome of one iteration of the outer `while` loop. -/
inductive StepResult where
  | done
  | skip (rest : List Char)
  | token (t : Token) (rest : List Char)
  | failed (e : TokenizerError)
deriving DecidableEq, Repr

/-- One iteration of the outer dispatch, tokenizer.rs lines 59-204: peek the
current character and either finish (input empty), discard a space, emit one
token together with the unconsumed rest, or fail. -/
def tokenizeStep : List Char → StepResult
  | [] => .done
  | c :: rest =>
    if c = ' ' then .skip rest
    else if c = '(' then .token .OpenParenthesis rest
    else if c = ')' then .token .CloseParenthesis rest
    else if c = ',' then .token .Comma rest
    else if c = '+' then .token (.Operator .Plus) rest
    else if c = '-' then .token (.Operator .Minus) rest
    else if c = '*' then .token (.Operator .Multiply) rest
    else if c = '/' then .token (.Operator .Divide) rest
    else if c = '%' then .token (.Operator .Modulo) rest
    else if c = '^' then .token (.Operator .Power) rest
    else if c = '=' then
      if rest.head? = some '=' then .token (.Operator .Equal) rest.tail
      else .failed (.UnexpectedChar '=')
    else if c = '!' then
      if rest.head? = some '=' then .token (.Operator .NotEqual) rest.tail
      else .failed (.UnexpectedChar '!')
    else if c = '<' then
      if rest.head? = some '=' then .token (.Operator .LessEqual) rest.tail
      else .token (.Operator .Less) rest
    else if c = '>' then
      if rest.head? = some '=' then .token (.Operator .GreaterEqual) rest.tail
      else .token (.Operator .Greater) rest
    else if c = '&' then
      if rest.head? = some '&' then .token (.Operator .And) rest.tail
      else .failed (.UnexpectedChar '&')
    else if c = '|' then
      if rest.head? = some '|' then .token (.Operator .Or) rest.tail
      else .failed (.UnexpectedChar '|')
    else if c = '"' then
      match scanString rest with
      | .ok (s, r) => .token (.StringLiteral s) r
      | .error e => .failed e
    else
      match scanIdent (c :: rest) with
      | .ok (s, r) =>
        if r.head? = some '(' then .token (.Function s) r
        else .token (.Identifier s) r
      | .error e => .failed e

/-- Prepend a token to the eventual token list of a loop continuation
(the Rust `tokens.push`; an error or a non-terminating continuation discards
the token, as the Rust `return Err` discards the `tokens` vector). -/
def consTok (t : Token) :
    Option (Except TokenizerError (List Token)) →
    Option (Except TokenizerError (List Token)) :=
  Option.map (Except.map (fun ts => t :: ts))

/-- The outer `while` loop of `tokenize`, tokenizer.rs lines 55-208, indexed
by fuel (number of remaining iterations): `none` means the loop did not
terminate within the given fuel. -/
def tokenizeFuel : Nat → List Char → Option (Except TokenizerError (List Token))
  | 0, _ => none
  | fuel + 1, cs =>
    match tokenizeStep cs with
    | .done => some (.ok [])
    | .skip rest => tokenizeFuel fuel rest
    | .token t rest => consTok t (tokenizeFuel fuel rest)
    | .failed e => some (.error e)

/-- `tokenize cs` returns `r`: the loop terminates with result `r` given some
amount of fuel. -/
def Tokenizes (cs : List Char) (r : Except TokenizerError (List Token)) : Prop :=
  ∃ fuel, tokenizeFuel fuel cs = some r

/-- Executable entry point on strings.  A terminating run of the Rust loop
consumes at least one character per iteration (the one zero-progress case,
an empty identifier whose lookahead is not `'('`, repeats forever), so
`length + 1` fuel suffices whenever the loop terminates at all. -/
def tokenize (s : String) : Option (Except TokenizerError (List Token)) :=
  tokenizeFuel (s.length + 1) s.data

/-- The characters on which the outer dispatch has a dedicated arm;
every other character falls to the default (identifier) branch. -/
def isDispatchChar (c : Char) : Bool :=
  [' ', '(', ')', ',', '+', '-', '*', '/', '%', '^',
   '=', '!', '<', '>', '&', '|', '"'].contains c

/-- Every `Function` token in the list is immediately followed by an
`OpenParenthesis` token (so a `Function` token is never last). -/
def funcsFollowed : List Token → Bool
  | [] => true
  | Token.Function _ :: rest =>
    match rest with
    | Token.OpenParenthesis :: _ => funcsFollowed rest
    | _ => false
  | _ :: rest => funcsFollowed rest

/-- Tokens whose canonical lexeme is one of the 14 operator lexemes or a
structural character `(`, `)`, `,`. -/
def isOpLex : Token → Bool
  | .Operator _ => true
  | .OpenParenthesis => true
  | .CloseParenthesis => true
  | .Comma => true
  | _ => false

/-- The canonical lexeme of an operator or structural token, as fixed by the
spec's operator enumeration (payload-carrying tokens are irrelevant here and
map to the empty lexeme). -/
def opLexeme : Token → List Char
  | .Operator .Plus => ['+']
  | .Operator .Minus => ['-']
  | .Operator .Multiply => ['*']
  | .Operator .Divide => ['/']
  | .Operator .Modulo => ['%']
  | .Operator .Power => ['^']
  | .Operator .Equal => ['=', '=']
  | .Operator .NotEqual => ['!', '=']
  | .Operator .Greater => ['>']
  | .Operator .Less => ['<']
  | .Operator .GreaterEqual => ['>', '=']
  | .Operator .LessEqual => ['<', '=']
  | .Operator .And => ['&', '&']
  | .Operator .Or => ['|', '|']
  | .OpenParenthesis => ['(']
  | .CloseParenthesis => [')']
  | .Comma => [',']
  | _ => []

/-- Join the canonical lexemes of a token list with single spaces. -/
def joinLex : List Token → List Char
  | [] => []
  | [t] => opLexeme t
  | t :: ts => opLexeme t ++ ' ' :: joinLex ts

theorem tokenizeFuel_mono {f f' : Nat} (h : f ≤ f') {cs : List Char}
    {r : Except TokenizerError (List Token)}
    (hr : tokenizeFuel f cs = some r) : tokenizeFuel f' cs = some r := by
  induction f generalizing f' cs r with
  | zero => simp [tokenizeFuel] at hr
  | succ f ih =>
    obtain ⟨f'', rfl⟩ : ∃ g, f' = g + 1 := ⟨f' - 1, by omega⟩
    rw [tokenizeFuel] at hr ⊢
    cases hstep : tokenizeStep cs <;> rw [hstep] at hr <;> dsimp only at hr ⊢
    case done => exact hr
    case skip rest => exact ih (by omega) hr
    case token t rest =>
      cases hx : tokenizeFuel f rest with
      | none => rw [hx] at hr; simp [consTok] at hr
      | some e =>
        rw [hx] at hr
        rw [ih (by omega) hx]
        exact hr
    case failed e => exact hr

theorem getLast?_eq_of_suffix {l r : List Char} {x : Char}
    (h : r <:+ l) (hx : r.getLast? = some x) : l.getLast? = some x := by
  obtain ⟨t, rfl⟩ := h
  rw [List.getLast?_append_of_ne_nil t (by rintro rfl; simp at hx)]
  exact hx

theorem scanIdent_ok_suffix : ∀ cs s r, scanIdent cs = .ok (s, r) → r <:+ cs := by
  intro cs
  induction cs using scanIdent.induct with
  | case1 => intro s r h; simp [scanIdent] at h; simp [h.2]
  | case2 c rest' hc ih =>
    intro s r h
    rw [scanIdent.eq_def] at h
    simp only [hc, if_true] at h
    cases hx : scanIdent rest' with
    | ok p =>
      rw [hx] at h
      simp [Except.map] at h
      rw [← h.2]
      exact (ih p.1 p.2 (by rw [hx])).trans (List.suffix_cons c rest')
    | error err => rw [hx] at h; simp [Except.map] at h
  | case3 hni => intro s r h; rw [scanIdent.eq_def] at h; simp [hni] at h
  | case4 e rest' hni ih =>
    intro s r h
    rw [scanIdent.eq_def] at h
    simp only [hni, if_false, Bool.false_eq_true, if_pos rfl] at h
    cases hx : scanIdent rest' with
    | ok p =>
      rw [hx] at h
      simp [Except.map] at h
      rw [← h.2]
      exact ((ih p.1 p.2 (by rw [hx])).trans
        (List.suffix_cons e rest')).trans (List.suffix_cons '\\' (e :: rest'))
    | error err => rw [hx] at h; simp [Except.map] at h
  | case5 c rest' h1 h2 =>
    intro s r h
    rw [scanIdent.eq_def] at h
    simp [h1, h2] at h
    rw [← h.2]

theorem scanString_error : ∀ cs e, scanString cs = .error e →
    e = .UnexpectedEndOfString ∧ cs.getLast? = some '\\' := by
  intro cs
  induction cs using scanString.induct with
  | case1 => intro e h; simp [scanString] at h
  | case2 => intro e h; simp [scanString] at h; simp [← h]
  | case3 e2 rest' ih =>
    intro e h
    simp only [scanString, if_pos rfl] at h
    cases hx : scanString rest' with
    | ok p => rw [hx] at h; simp [Except.map] at h
    | error err =>
      rw [hx] at h
      simp [Except.map] at h
      obtain ⟨h1, h2⟩ := ih err hx
      subst h
      refine ⟨h1, getLast?_eq_of_suffix ?_ h2⟩
      exact (List.suffix_cons e2 rest').trans (List.suffix_cons '\\' (e2 :: rest'))
  | case4 rest' hne => intro e h; rw [scanString.eq_def] at h; simp at h
  | case5 c rest' h1 h2 ih =>
    intro e h
    rw [scanString.eq_def] at h
    simp only [if_neg h1, if_neg h2] at h
    cases hx : scanString rest' with
    | ok p => rw [hx] at h; simp [Except.map] at h
    | error err =>
      rw [hx] at h
      simp [Except.map] at h
      obtain ⟨h3, h4⟩ := ih err hx
      subst h
      exact ⟨h3, getLast?_eq_of_suffix (List.suffix_cons c rest') h4⟩

theorem scanIdent_error : ∀ cs e, scanIdent cs = .error e →
    e = .UnexpectedEndOfString ∧ cs.getLast? = some '\\' := by
  intro cs
  induction cs using scanIdent.induct with
  | case1 => intro e h; simp [scanIdent] at h
  | case2 c rest' hc ih =>
    intro e h
    rw [scanIdent.eq_def] at h
    simp only [hc, if_true] at h
    cases hx : scanIdent rest' with
    | ok p => rw [hx] at h; simp [Except.map] at h
    | error err =>
      rw [hx] at h
      simp [Except.map] at h
      obtain ⟨h1, h2⟩ := ih err hx
      subst h
      exact ⟨h1, getLast?_eq_of_suffix (List.suffix_cons c rest') h2⟩
  | case3 hni =>
    intro e h
    rw [scanIdent.eq_def] at h
    simp [hni] at h
    simp [← h]
  | case4 e2 rest' hni ih =>
    intro e h
    rw [scanIdent.eq_def] at h
    simp only [hni, if_false, Bool.false_eq_true, if_pos rfl] at h
    cases hx : scanIdent rest' with
    | ok p => rw [hx] at h; simp [Except.map] at h
    | error err =>
      rw [hx] at h
      simp [Except.map] at h
      obtain ⟨h1, h2⟩ := ih err hx
      subst h
      refine ⟨h1, getLast?_eq_of_suffix ?_ h2⟩
      exact (List.suffix_cons e2 rest').trans (List.suffix_cons '\\' (e2 :: rest'))
  | case5 c rest' h1 h2 =>
    intro e h
    rw [scanIdent.eq_def] at h
    simp [h1, h2] at h

theorem scanString_ok_suffix : ∀ cs s r, scanString cs = .ok (s, r) → r <:+ cs := by
  intro cs
  induction cs using scanString.induct with
  | case1 => intro s r h; simp [scanString] at h; simp [h.2]
  | case2 => intro s r h; simp [scanString] at h
  | case3 e rest' ih =>
    intro s r h
    simp only [scanString, if_pos rfl] at h
    cases hx : scanString rest' with
    | ok p =>
      rw [hx] at h
      simp [Except.map] at h
      rw [← h.2]
      exact ((ih p.1 p.2 (by rw [hx])).trans
        (List.suffix_cons e rest')).trans (List.suffix_cons '\\' (e :: rest'))
    | error err => rw [hx] at h; simp [Except.map] at h
  | case4 rest' hne =>
    intro s r h
    rw [scanString.eq_def] at h
    simp at h
    rw [← h.2]
    exact List.suffix_cons '"' rest'
  | case5 c rest' h1 h2 ih =>
    intro s r h
    rw [scanString.eq_def] at h
    simp only [if_neg h1, if_neg h2] at h
    cases hx : scanString rest' with
    | ok p =>
      rw [hx] at h
      simp [Except.map] at h
      rw [← h.2]
      exact (ih p.1 p.2 (by rw [hx])).trans (List.suffix_cons c rest')
    | error err => rw [hx] at h; simp [Except.map] at h

theorem tokenizeStep_char (c : Char) (rest : List Char) :
    tokenizeStep (c :: rest) = .skip rest ∨
    (∃ t, tokenizeStep (c :: rest) = .token t rest ∧ ∀ s, t ≠ .Function s) ∨
    (∃ t, tokenizeStep (c :: rest) = .token t rest.tail ∧ ∀ s, t ≠ .Function s) ∨
    (∃ ch, tokenizeStep (c :: rest) = .failed (.UnexpectedChar ch)) ∨
    (tokenizeStep (c :: rest) = match scanString rest with
        | .ok (s, r) => .token (.StringLiteral s) r
        | .error e => .failed e) ∨
    (tokenizeStep (c :: rest) = match scanIdent (c :: rest) with
        | .ok (s, r) => if r.head? = some '(' then .token (.Function s) r
                        else .token (.Identifier s) r
        | .error e => .failed e) := by
  by_cases h1 : c = ' '
  · subst h1; exact Or.inl rfl
  by_cases h2 : c = '('
  · subst h2
    exact Or.inr (Or.inl ⟨_, rfl, fun s hs => Token.noConfusion hs⟩)
  by_cases h3 : c = ')'
  · subst h3
    exact Or.inr (Or.inl ⟨_, rfl, fun s hs => Token.noConfusion hs⟩)
  by_cases h4 : c = ','
  · subst h4
    exact Or.inr (Or.inl ⟨_, rfl, fun s hs => Token.noConfusion hs⟩)
  by_cases h5 : c = '+'
  · subst h5
    exact Or.inr (Or.inl ⟨_, rfl, fun s hs => Token.noConfusion hs⟩)
  by_cases h6 : c = '-'
  · subst h6
    exact Or.inr (Or.inl ⟨_, rfl, fun s hs => Token.noConfusion hs⟩)
  by_cases h7 : c = '*'
  · subst h7
    exact Or.inr (Or.inl ⟨_, rfl, fun s hs => Token.noConfusion hs⟩)
  by_cases h8 : c = '/'
  · subst h8
    exact Or.inr (Or.inl ⟨_, rfl, fun s hs => Token.noConfusion hs⟩)
  by_cases h9 : c = '%'
  · subst h9
    exact Or.inr (Or.inl ⟨_, rfl, fun s hs => Token.noConfusion hs⟩)
  by_cases h10 : c = '^'
  · subst h10
    exact Or.inr (Or.inl ⟨_, rfl, fun s hs => Token.noConfusion hs⟩)
  by_cases h11 : c = '='
  · subst h11
    by_cases hh : rest.head? = some '='
    · exact Or.inr (Or.inr (Or.inl ⟨.Operator .Equal,
        by simp [tokenizeStep, hh], fun s hs => Token.noConfusion hs⟩))
    · exact Or.inr (Or.inr (Or.inr (Or.inl ⟨'=', by simp [tokenizeStep, hh]⟩)))
  by_cases h12 : c = '!'
  · subst h12
    by_cases hh : rest.head? = some '='
    · exact Or.inr (Or.inr (Or.inl ⟨.Operator .NotEqual,
        by simp [tokenizeStep, hh], fun s hs => Token.noConfusion hs⟩))
    · exact Or.inr (Or.inr (Or.inr (Or.inl ⟨'!', by simp [tokenizeStep, hh]⟩)))
  by_cases h13 : c = '<'
  · subst h13
    by_cases hh : rest.head? = some '='
    · exact Or.inr (Or.inr (Or.inl ⟨.Operator .LessEqual,
        by simp [tokenizeStep, hh], fun s hs => Token.noConfusion hs⟩))
    · exact Or.inr (Or.inl ⟨.Operator .Less,
        by simp [tokenizeStep, hh], fun s hs => Token.noConfusion hs⟩)
  by_cases h14 : c = '>'
  · subst h14
    by_cases hh : rest.head? = some '='
    · exact Or.inr (Or.inr (Or.inl ⟨.Operator .GreaterEqual,
        by simp [tokenizeStep, hh], fun s hs => Token.noConfusion hs⟩))
    · exact Or.inr (Or.inl ⟨.Operator .Greater,
        by simp [tokenizeStep, hh], fun s hs => Token.noConfusion hs⟩)
  by_cases h15 : c = '&'
  · subst h15
    by_cases hh : rest.head? = some '&'
    · exact Or.inr (Or.inr (Or.inl ⟨.Operator .And,
        by simp [tokenizeStep, hh], fun s hs => Token.noConfusion hs⟩))
    · exact Or.inr (Or.inr (Or.inr (Or.inl ⟨'&', by simp [tokenizeStep, hh]⟩)))
  by_cases h16 : c = '|'
  · subst h16
    by_cases hh : rest.head? = some '|'
    · exact Or.inr (Or.inr (Or.inl ⟨.Operator .Or,
        by simp [tokenizeStep, hh], fun s hs => Token.noConfusion hs⟩))
    · exact Or.inr (Or.inr (Or.inr (Or.inl ⟨'|', by simp [tokenizeStep, hh]⟩)))
  by_cases h17 : c = '"'
  · subst h17
    refine Or.inr (Or.inr (Or.inr (Or.inr (Or.inl ?_))))
    cases hx : scanString rest with
    | ok p => obtain ⟨s1, r1⟩ := p; simp [tokenizeStep, hx]
    | error e => simp [tokenizeStep, hx]
  refine Or.inr (Or.inr (Or.inr (Or.inr (Or.inr ?_))))
  simp only [tokenizeStep]
  rw [if_neg h1, if_neg h2, if_neg h3, if_neg h4, if_neg h5, if_neg h6, if_neg h7,
    if_neg h8, if_neg h9, if_neg h10, if_neg h11, if_neg h12, if_neg h13, if_neg h14,
    if_neg h15, if_neg h16, if_neg h17]

theorem tokenizeStep_function {cs r s : List Char}
    (h : tokenizeStep cs = .token (.Function s) r) : r.head? = some '(' := by
  cases cs with
  | nil => simp [tokenizeStep] at h
  | cons c rest =>
    rcases tokenizeStep_char c rest with h0 | ⟨t, ht, hnf⟩ | ⟨t, ht, hnf⟩ | ⟨ch, hch⟩ | hstr | hid
    · rw [h0] at h; simp at h
    · rw [ht] at h; simp at h; exact absurd h.1 (hnf s)
    · rw [ht] at h; simp at h; exact absurd h.1 (hnf s)
    · rw [hch] at h; simp at h
    · rw [hstr] at h
      cases hx : scanString rest with
      | ok p => obtain ⟨s1, r1⟩ := p; rw [hx] at h; simp at h
      | error e => rw [hx] at h; simp at h
    · rw [hid] at h
      cases hx : scanIdent (c :: rest) with
      | ok p =>
        obtain ⟨s1, r1⟩ := p
        rw [hx] at h
        dsimp only at h
        split_ifs at h with hcond
        · simp at h
          rw [← h.2]
          exact hcond
        · simp at h
      | error e => rw [hx] at h; simp at h

theorem tokenizeStep_skip_suffix {cs r : List Char}
    (h : tokenizeStep cs = .skip r) : r <:+ cs := by
  cases cs with
  | nil => simp [tokenizeStep] at h
  | cons c rest =>
    rcases tokenizeStep_char c rest with h0 | ⟨t, ht, hnf⟩ | ⟨t, ht, hnf⟩ | ⟨ch, hch⟩ | hstr | hid
    · rw [h0] at h
      simp at h
      rw [← h]
      exact List.suffix_cons c rest
    · rw [ht] at h; simp at h
    · rw [ht] at h; simp at h
    · rw [hch] at h; simp at h
    · rw [hstr] at h
      cases hx : scanString rest with
      | ok p => obtain ⟨s1, r1⟩ := p; rw [hx] at h; simp at h
      | error e => rw [hx] at h; simp at h
    · rw [hid] at h
      cases hx : scanIdent (c :: rest) with
      | ok p =>
        obtain ⟨s1, r1⟩ := p
        rw [hx] at h
        dsimp only at h
        split_ifs at h
      | error e => rw [hx] at h; simp at h

theorem tokenizeStep_token_suffix {cs r : List Char} {t : Token}
    (h : tokenizeStep cs = .token t r) : r <:+ cs := by
  cases cs with
  | nil => simp [tokenizeStep] at h
  | cons c rest =>
    rcases tokenizeStep_char c rest with h0 | ⟨t2, ht, hnf⟩ | ⟨t2, ht, hnf⟩ | ⟨ch, hch⟩ | hstr | hid
    · rw [h0] at h; simp at h
    · rw [ht] at h
      simp at h
      rw [← h.2]
      exact List.suffix_cons c rest
    · rw [ht] at h
      simp at h
      rw [← h.2]
      exact (List.tail_suffix rest).trans (List.suffix_cons c rest)
    · rw [hch] at h; simp at h
    · rw [hstr] at h
      cases hx : scanString rest with
      | ok p =>
        obtain ⟨s1, r1⟩ := p
        rw [hx] at h
        simp at h
        rw [← h.2]
        exact (scanString_ok_suffix rest s1 r1 hx).trans (List.suffix_cons c rest)
      | error e => rw [hx] at h; simp at h
    · rw [hid] at h
      cases hx : scanIdent (c :: rest) with
      | ok p =>
        obtain ⟨s1, r1⟩ := p
        rw [hx] at h
        dsimp only at h
        split_ifs at h <;> simp at h <;> rw [← h.2] <;>
          exact scanIdent_ok_suffix (c :: rest) s1 r1 hx
      | error e => rw [hx] at h; simp at h

theorem tokenizeStep_failed_eos {cs : List Char}
    (h : tokenizeStep cs = .failed .UnexpectedEndOfString) :
    cs.getLast? = some '\\' := by
  cases cs with
  | nil => simp [tokenizeStep] at h
  | cons c rest =>
    rcases tokenizeStep_char c rest with h0 | ⟨t, ht, hnf⟩ | ⟨t, ht, hnf⟩ | ⟨ch, hch⟩ | hstr | hid
    · rw [h0] at h; simp at h
    · rw [ht] at h; simp at h
    · rw [ht] at h; simp at h
    · rw [hch] at h; simp at h
    · rw [hstr] at h
      cases hx : scanString rest with
      | ok p => obtain ⟨s1, r1⟩ := p; rw [hx] at h; simp at h
      | error e =>
        rw [hx] at h
        simp at h
        subst h
        exact getLast?_eq_of_suffix (List.suffix_cons c rest)
          (scanString_error rest _ hx).2
    · rw [hid] at h
      cases hx : scanIdent (c :: rest) with
      | ok p =>
        obtain ⟨s1, r1⟩ := p
        rw [hx] at h
        dsimp only at h
        split_ifs at h
      | error e =>
        rw [hx] at h
        simp at h
        subst h
        exact (scanIdent_error (c :: rest) _ hx).2

theorem tokenizeFuel_stuck {cs : List Char} (t : Token)
    (h : tokenizeStep cs = .token t cs) : ∀ fuel, tokenizeFuel fuel cs = none := by
  intro fuel
  induction fuel with
  | zero => rfl
  | succ f ih => rw [tokenizeFuel, h]; dsimp only; rw [ih]; rfl

/-- C1: the claim that `tokenize` terminates with `Ok` or `Err` on every input,
in particular on inputs containing characters such as `@`, tab, or newline,
is refuted by the code: on such a character the default identifier branch
accumulates nothing and consumes nothing, so the outer loop repeats forever
(no amount of fuel makes the loop finish). -/
theorem c1_tokenize_diverges_on_default_branch :
    (∀ fuel, tokenizeFuel fuel ['@'] = none) ∧
    (∀ fuel, tokenizeFuel fuel ['\t'] = none) ∧
    (∀ fuel, tokenizeFuel fuel ['\n'] = none) :=
  ⟨tokenizeFuel_stuck (.Identifier []) (by decide),
   tokenizeFuel_stuck (.Identifier []) (by decide),
   tokenizeFuel_stuck (.Identifier []) (by decide)⟩

/-- C8: the full worked example of the spec tokenizes to exactly the claimed
30-token sequence, with the non-ASCII letter `π` accepted as an identifier. -/
theorem c8_worked_example :
    tokenize "(2 + 3 * sin(π/4)) / (sqrt(9) + log(100, 10)) - 2^3" =
      some (.ok
        [.OpenParenthesis, .Identifier ['2'], .Operator .Plus, .Identifier ['3'],
         .Operator .Multiply, .Function ['s', 'i', 'n'], .OpenParenthesis,
         .Identifier ['π'], .Operator .Divide, .Identifier ['4'],
         .CloseParenthesis, .CloseParenthesis, .Operator .Divide,
         .OpenParenthesis, .Function ['s', 'q', 'r', 't'], .OpenParenthesis,
         .Identifier ['9'], .CloseParenthesis, .Operator .Plus,
         .Function ['l', 'o', 'g'], .OpenParenthesis,
         .Identifier ['1', '0', '0'], .Comma, .Identifier ['1', '0'],
         .CloseParenthesis, .CloseParenthesis, .Operator .Minus,
         .Identifier ['2'], .Operator .Power, .Identifier ['3']]) := by
  rfl

/-- C2: after an identifier-branch accumulation run ends, the accumulated text
is emitted as `Function` exactly when the next unconsumed character is `'('`
(and as `Identifier` otherwise); `"foo (x)"` yields an `Identifier` before the
parenthesis token while `"foo(x)"` yields a `Function`. -/
theorem c2_function_vs_identifier :
    (∀ c rest s r, isDispatchChar c = false → scanIdent (c :: rest) = .ok (s, r) →
      tokenizeStep (c :: rest) =
        .token (if r.head? = some '(' then .Function s else .Identifier s) r) ∧
    tokenize "foo (x)" = some (.ok
      [.Identifier ['f', 'o', 'o'], .OpenParenthesis,
       .Identifier ['x'], .CloseParenthesis]) ∧
    tokenize "foo(x)" = some (.ok
      [.Function ['f', 'o', 'o'], .OpenParenthesis,
       .Identifier ['x'], .CloseParenthesis]) := by
  refine ⟨?_, rfl, rfl⟩
  intro c rest s r hd hscan
  simp [isDispatchChar] at hd
  obtain ⟨h1, h2, h3, h4, h5, h6, h7, h8, h9, h10, h11, h12,
    h13, h14, h15, h16, h17⟩ := hd
  simp only [tokenizeStep, h1, h2, h3, h4, h5, h6, h7, h8, h9, h10, h11, h12,
    h13, h14, h15, h16, h17, if_false, hscan]
  split <;> simp

/-- C2 witness: at the concrete input `"f("` the accumulated text `"f"` is
followed by `'('` and is emitted as a `Function` token. -/
theorem c2_function_vs_identifier_witness :
    tokenizeStep ['f', '('] = .token (.Function ['f']) ['('] := by
  simpa using
    c2_function_vs_identifier.1 'f' ['('] ['f'] ['('] (by decide) rfl

/-- C3: the double-character operators `==`, `!=`, `&&`, `||` tokenize to their
operators, and a lead `=`, `!`, `&`, `|` without the required second character
makes the whole call fail with `UnexpectedChar` carrying the lead character,
discarding any earlier tokens. -/
theorem c3_lead_char_operators :
    tokenize "==" = some (.ok [.Operator .Equal]) ∧
    tokenize "!=" = some (.ok [.Operator .NotEqual]) ∧
    tokenize "&&" = some (.ok [.Operator .And]) ∧
    tokenize "||" = some (.ok [.Operator .Or]) ∧
    (∀ fuel rest, rest.head? ≠ some '=' →
      tokenizeFuel (fuel + 1) ('=' :: rest) = some (.error (.UnexpectedChar '='))) ∧
    (∀ fuel rest, rest.head? ≠ some '=' →
      tokenizeFuel (fuel + 1) ('!' :: rest) = some (.error (.UnexpectedChar '!'))) ∧
    (∀ fuel rest, rest.head? ≠ some '&' →
      tokenizeFuel (fuel + 1) ('&' :: rest) = some (.error (.UnexpectedChar '&'))) ∧
    (∀ fuel rest, rest.head? ≠ some '|' →
      tokenizeFuel (fuel + 1) ('|' :: rest) = some (.error (.UnexpectedChar '|'))) ∧
    tokenize "a=b" = some (.error (.UnexpectedChar '=')) := by
  refine ⟨rfl, rfl, rfl, rfl, ?_, ?_, ?_, ?_, rfl⟩ <;> intro fuel rest h <;>
    rw [tokenizeFuel] <;> simp [tokenizeStep, h]

/-- C3 witness: the input `"="` (lead `=`, nothing after) fails with
`UnexpectedChar '='`. -/
theorem c3_lead_char_operators_witness :
    ([] : List Char).head? ≠ some '=' ∧
    tokenizeFuel 1 ['='] = some (.error (.UnexpectedChar '=')) :=
  ⟨by decide, c3_lead_char_operators.2.2.2.2.1 0 [] (by decide)⟩

/-- C5: inside a string literal, `\n` decodes to a newline, `\t` to a tab,
`\"` to a double quote, and any other escaped character to itself; the
delimiting quotes are dropped, so `"a\nb"` (quote, a, backslash, n, b, quote)
yields one `StringLiteral` whose payload holds an actual newline. -/
theorem c5_string_escapes :
    (∀ e rest, scanString ('\\' :: e :: rest) =
      (scanString rest).map (fun p => (escTranslate e :: p.1, p.2))) ∧
    escTranslate 'n' = '\n' ∧
    escTranslate 't' = '\t' ∧
    escTranslate '"' = '"' ∧
    (∀ e, e ≠ 'n' → e ≠ 't' → e ≠ '"' → escTranslate e = e) ∧
    tokenize (String.mk ['"', 'a', '\\', 'n', 'b', '"']) =
      some (.ok [.StringLiteral ['a', '\n', 'b']]) := by
  refine ⟨?_, rfl, rfl, rfl, ?_, rfl⟩
  · intro e rest
    rw [scanString.eq_def]; simp
  · intro e h1 h2 h3
    simp [escTranslate, h1, h2, h3]

/-- C5 witness: the escaped character `x` is not one of the three special
cases and decodes to itself. -/
theorem c5_string_escapes_witness :
    ('x' ≠ 'n' ∧ 'x' ≠ 't' ∧ 'x' ≠ '"') ∧ escTranslate 'x' = 'x' :=
  ⟨by decide,
   c5_string_escapes.2.2.2.2.1 'x' (by decide) (by decide) (by decide)⟩

/-- C6: `<`, `<=`, `>`, `>=` tokenize to their comparison operators; a lone
`<` or `>` never errors, and when not followed by `=` the continuation runs on
the untouched rest of the input (lookahead unconsumed). -/
theorem c6_angle_operators :
    tokenize "<" = some (.ok [.Operator .Less]) ∧
    tokenize "<=" = some (.ok [.Operator .LessEqual]) ∧
    tokenize ">" = some (.ok [.Operator .Greater]) ∧
    tokenize ">=" = some (.ok [.Operator .GreaterEqual]) ∧
    (∀ fuel rest, rest.head? ≠ some '=' →
      tokenizeFuel (fuel + 1) ('<' :: rest) =
        consTok (.Operator .Less) (tokenizeFuel fuel rest)) ∧
    (∀ fuel rest, rest.head? ≠ some '=' →
      tokenizeFuel (fuel + 1) ('>' :: rest) =
        consTok (.Operator .Greater) (tokenizeFuel fuel rest)) := by
  refine ⟨rfl, rfl, rfl, rfl, ?_, ?_⟩ <;> intro fuel rest h <;>
    rw [tokenizeFuel] <;> simp [tokenizeStep, h]

/-- C6 witness: on `"<a"` the `<` emits `Less` and the continuation receives
the unconsumed `"a"`. -/
theorem c6_angle_operators_witness :
    (['a'].head? ≠ some '=') ∧
    tokenizeFuel 2 ['<', 'a'] = consTok (.Operator .Less) (tokenizeFuel 1 ['a']) :=
  ⟨by decide, c6_angle_operators.2.2.2.2.1 1 ['a'] (by decide)⟩

/-- C9: in the identifier branch a backslash appends the immediately following
character verbatim (no translation: backslash-n appends the letter `n`, and an
escaped space embeds a space, e.g. `a\ b` is the single identifier `"a b"`);
accumulation continues on alphanumeric, `_`, `.` characters and otherwise
stops at the first other character. -/
theorem c9_identifier_escapes :
    (∀ e rest, scanIdent ('\\' :: e :: rest) =
      (scanIdent rest).map (fun p => (e :: p.1, p.2))) ∧
    (∀ c rest, isIdentChar c = true →
      scanIdent (c :: rest) = (scanIdent rest).map (fun p => (c :: p.1, p.2))) ∧
    (∀ c rest, isIdentChar c = false → c ≠ '\\' →
      scanIdent (c :: rest) = .ok ([], c :: rest)) ∧
    tokenize (String.mk ['a', '\\', ' ', 'b']) =
      some (.ok [.Identifier ['a', ' ', 'b']]) ∧
    tokenize (String.mk ['a', '\\', 'n', 'b']) =
      some (.ok [.Identifier ['a', 'n', 'b']]) := by
  refine ⟨?_, ?_, ?_, rfl, rfl⟩
  · intro e rest; rw [scanIdent.eq_def]; simp [isIdentChar, rustIsAlphanumeric]
  · intro c rest h; rw [scanIdent.eq_def]; simp [h]
  · intro c rest h h2; rw [scanIdent.eq_def]; simp [h, h2]

/-- C9 witness: `'@'` is not an accumulable character, so accumulation stops
at it immediately, consuming nothing. -/
theorem c9_identifier_escapes_witness :
    (isIdentChar '@' = false ∧ '@' ≠ '\\') ∧
    scanIdent ['@'] = .ok ([], ['@']) :=
  ⟨by decide, c9_identifier_escapes.2.2.1 '@' [] (by decide) (by decide)⟩


theorem tokenizeFuel_eos : ∀ fuel cs,
    tokenizeFuel fuel cs = some (.error .UnexpectedEndOfString) →
    cs.getLast? = some '\\' := by
  intro fuel
  induction fuel with
  | zero => intro cs h; simp [tokenizeFuel] at h
  | succ f ih =>
    intro cs h
    rw [tokenizeFuel] at h
    cases hstep : tokenizeStep cs <;> rw [hstep] at h <;> dsimp only at h
    case done => simp at h
    case skip rest =>
      exact getLast?_eq_of_suffix (tokenizeStep_skip_suffix hstep) (ih rest h)
    case token t rest =>
      cases hx : tokenizeFuel f rest with
      | none => rw [hx] at h; simp [consTok, Except.map] at h
      | some res =>
        rw [hx] at h
        cases res with
        | ok ts => simp [consTok, Except.map] at h
        | error err =>
          obtain rfl : err = .UnexpectedEndOfString := by
            simpa [consTok, Except.map] using h
          exact getLast?_eq_of_suffix (tokenizeStep_token_suffix hstep) (ih rest hx)
    case failed e =>
      obtain rfl : e = .UnexpectedEndOfString := by simpa using h
      exact tokenizeStep_failed_eos hstep

theorem scanString_trailing_backslash : ∀ p : List Char, '"' ∉ p → '\\' ∉ p →
    scanString (p ++ ['\\']) = .error .UnexpectedEndOfString := by
  intro p
  induction p with
  | nil => intro _ _; rfl
  | cons c p' ih =>
    intro hq hb
    have hc1 : c ≠ '\\' := fun hh => hb (by simp [hh])
    have hc2 : c ≠ '"' := fun hh => hq (by simp [hh])
    rw [List.cons_append, scanString.eq_def]
    simp [hc1, hc2, ih (fun hh => hq (by simp [hh])) (fun hh => hb (by simp [hh])),
      Except.map]

theorem scanIdent_trailing_backslash : ∀ p : List Char, (∀ c ∈ p, isIdentChar c = true) →
    scanIdent (p ++ ['\\']) = .error .UnexpectedEndOfString := by
  intro p
  induction p with
  | nil => intro _; rfl
  | cons c p' ih =>
    intro hall
    have hc : isIdentChar c = true := hall c (by simp)
    rw [List.cons_append, scanIdent.eq_def]
    simp [hc, ih (fun u hu => hall u (by simp [hu])), Except.map]

theorem scanString_plain : ∀ body : List Char, '\\' ∉ body → '"' ∉ body →
    scanString body = .ok (body, []) := by
  intro body
  induction body with
  | nil => intro _ _; rfl
  | cons c body' ih =>
    intro hb hq
    have hc1 : c ≠ '\\' := fun hh => hb (by simp [hh])
    have hc2 : c ≠ '"' := fun hh => hq (by simp [hh])
    rw [scanString.eq_def]
    simp [hc1, hc2, ih (fun hh => hb (by simp [hh])) (fun hh => hq (by simp [hh])),
      Except.map]

theorem tokenizes_unterminated_literal (body : List Char) (hb : '\\' ∉ body)
    (hq : '"' ∉ body) : Tokenizes ('"' :: body) (.ok [.StringLiteral body]) := by
  refine ⟨2, ?_⟩
  rw [tokenizeFuel]
  have hstep : tokenizeStep ('"' :: body) = .token (.StringLiteral body) [] := by
    simp [tokenizeStep, scanString_plain body hb hq]
  rw [hstep]
  rfl

theorem tokenizes_space {rest : List Char} {r : Except TokenizerError (List Token)}
    (h : Tokenizes rest r) : Tokenizes (' ' :: rest) r := by
  obtain ⟨f, hf⟩ := h
  refine ⟨f + 1, ?_⟩
  rw [tokenizeFuel]
  have hstep : tokenizeStep (' ' :: rest) = .skip rest := rfl
  rw [hstep]
  exact hf

theorem tokenizes_lex {t : Token} (ht : isOpLex t = true) {rest : List Char}
    {ts : List Token} (hr : rest.head? ≠ some '=') (h : Tokenizes rest (.ok ts)) :
    Tokenizes (opLexeme t ++ rest) (.ok (t :: ts)) := by
  obtain ⟨f, hf⟩ := h
  refine ⟨f + 1, ?_⟩
  cases t with
  | Identifier s => simp [isOpLex] at ht
  | StringLiteral s => simp [isOpLex] at ht
  | Function s => simp [isOpLex] at ht
  | OpenParenthesis =>
    simp [tokenizeFuel, tokenizeStep, opLexeme, consTok, Except.map, hf]
  | CloseParenthesis =>
    simp [tokenizeFuel, tokenizeStep, opLexeme, consTok, Except.map, hf]
  | Comma =>
    simp [tokenizeFuel, tokenizeStep, opLexeme, consTok, Except.map, hf]
  | Operator op =>
    cases op <;> simp [tokenizeFuel, tokenizeStep, opLexeme, consTok, Except.map, hf, hr]

theorem tokenizes_joinLex : ∀ ts : List Token, (∀ t ∈ ts, isOpLex t = true) →
    Tokenizes (joinLex ts) (.ok ts) := by
  intro ts
  induction ts with
  | nil => intro _; exact ⟨1, rfl⟩
  | cons t ts' ih =>
    intro h
    have ht : isOpLex t = true := h t (by simp)
    have hts' : ∀ u ∈ ts', isOpLex u = true := fun u hu => h u (by simp [hu])
    cases ts' with
    | nil =>
      have hl := tokenizes_lex ht (by simp) (show Tokenizes [] (.ok []) from ⟨1, rfl⟩)
      simpa [joinLex] using hl
    | cons u ts'' =>
      have hl := tokenizes_lex ht (by simp) (tokenizes_space (ih hts'))
      simpa [joinLex] using hl

/-- C4: `UnexpectedEndOfString` is returned exactly when the input ends
immediately after a backslash whose escaped character is missing, whether
inside a string literal or inside the identifier branch: every such error
implies the input ends with a backslash; a trailing backslash reached by the
string-literal or identifier scan produces the error; and an unterminated
string literal without a trailing backslash is not an error — its accumulated
contents are emitted as a `StringLiteral`, e.g. on `"\"unterminated"`. -/
theorem c4_unexpected_end_of_string :
    (∀ fuel cs, tokenizeFuel fuel cs = some (.error .UnexpectedEndOfString) →
      cs.getLast? = some '\\') ∧
    (∀ p, '"' ∉ p → '\\' ∉ p →
      scanString (p ++ ['\\']) = .error .UnexpectedEndOfString) ∧
    (∀ p, (∀ c ∈ p, isIdentChar c = true) →
      scanIdent (p ++ ['\\']) = .error .UnexpectedEndOfString) ∧
    (∀ body, '\\' ∉ body → '"' ∉ body →
      Tokenizes ('"' :: body) (.ok [.StringLiteral body])) ∧
    tokenize "\"unterminated" = some (.ok
      [.StringLiteral ['u', 'n', 't', 'e', 'r', 'm', 'i', 'n', 'a', 't', 'e', 'd']]) :=
  ⟨tokenizeFuel_eos, scanString_trailing_backslash, scanIdent_trailing_backslash,
   tokenizes_unterminated_literal, rfl⟩

/-- C4 witness: the two-character input quote-backslash errors with
`UnexpectedEndOfString` and indeed ends with a backslash. -/
theorem c4_unexpected_end_of_string_witness :
    tokenizeFuel 2 ['"', '\\'] = some (.error .UnexpectedEndOfString) ∧
    (['"', '\\'] : List Char).getLast? = some '\\' :=
  ⟨rfl, c4_unexpected_end_of_string.1 2 ['"', '\\'] rfl⟩

/-- C7: for any input formed by joining operator and structural lexemes with
single spaces, tokenize succeeds and mapping each resulting token back to its
canonical lexeme and re-joining with single spaces reproduces the input. -/
theorem c7_operator_round_trip (ts : List Token) (h : ∀ t ∈ ts, isOpLex t = true) :
    ∃ ts2, Tokenizes (joinLex ts) (.ok ts2) ∧ joinLex ts2 = joinLex ts :=
  ⟨ts, tokenizes_joinLex ts h, rfl⟩

/-- C7 witness: the input `"< ,"` round-trips through the tokenizer. -/
theorem c7_operator_round_trip_witness :
    (∀ t ∈ [Token.Operator .Less, Token.Comma], isOpLex t = true) ∧
    ∃ ts2, Tokenizes (joinLex [Token.Operator .Less, Token.Comma]) (.ok ts2) ∧
      joinLex ts2 = joinLex [Token.Operator .Less, Token.Comma] :=
  ⟨by decide, c7_operator_round_trip _ (by decide)⟩

/-- C10: in every successful result, each `Function` token is immediately
followed by an `OpenParenthesis` token; a `Function` token is never last and
never followed by anything else. -/
theorem c10_function_followed (fuel : Nat) :
    ∀ cs ts, tokenizeFuel fuel cs = some (.ok ts) → funcsFollowed ts = true := by
  induction fuel with
  | zero => intro cs ts h; simp [tokenizeFuel] at h
  | succ f ih =>
    intro cs ts h
    rw [tokenizeFuel] at h
    cases hstep : tokenizeStep cs <;> rw [hstep] at h <;> dsimp only at h
    case done =>
      obtain rfl : ts = [] := by simpa using h.symm
      rfl
    case skip rest => exact ih rest ts h
    case failed e => simp at h
    case token t rest =>
      cases hx : tokenizeFuel f rest with
      | none => rw [hx] at h; simp [consTok, Except.map] at h
      | some res =>
        rw [hx] at h
        cases res with
        | error err => simp [consTok, Except.map] at h
        | ok ts' =>
          obtain rfl : ts = t :: ts' := by
            simpa [consTok, Except.map] using h.symm
          have hts' := ih rest ts' hx
          cases t with
          | Function s =>
            have hpar := tokenizeStep_function hstep
            cases rest with
            | nil => simp at hpar
            | cons rc r2 =>
              obtain rfl : rc = '(' := by simpa using hpar
              cases f with
              | zero => simp [tokenizeFuel] at hx
              | succ f2 =>
                rw [tokenizeFuel] at hx
                have hsp : tokenizeStep ('(' :: r2) = .token .OpenParenthesis r2 := rfl
                rw [hsp] at hx
                dsimp only at hx
                cases hx2 : tokenizeFuel f2 r2 with
                | none => rw [hx2] at hx; simp [consTok, Except.map] at hx
                | some res2 =>
                  rw [hx2] at hx
                  cases res2 with
                  | error err2 => simp [consTok, Except.map] at hx
                  | ok ts2 =>
                    obtain rfl : ts' = .OpenParenthesis :: ts2 := by
                      simpa [consTok, Except.map] using hx.symm
                    simpa [funcsFollowed] using hts'
          | Identifier s => simpa [funcsFollowed] using hts'
          | Operator op => simpa [funcsFollowed] using hts'
          | OpenParenthesis => simpa [funcsFollowed] using hts'
          | CloseParenthesis => simpa [funcsFollowed] using hts'
          | StringLiteral s => simpa [funcsFollowed] using hts'
          | Comma => simpa [funcsFollowed] using hts'

/-- C10 witness: the input `"f("` produces a `Function` token and the
invariant evaluates to true on the result. -/
theorem c10_function_followed_witness :
    tokenizeFuel 3 ['f', '('] = some (.ok [.Function ['f'], .OpenParenthesis]) ∧
    funcsFollowed [.Function ['f'], .OpenParenthesis] = true :=
  ⟨rfl, c10_function_followed 3 ['f', '('] [.Function ['f'], .OpenParenthesis] rfl⟩

end BitExpr
